import Mathlib

/-!
Verification development for the ugly-JSON streaming server
(`ugly_json_server.py` and its older near-duplicate `json_generator.py`).

Modelling conventions (shallow embedding):

* The Python global pseudo-random generator is modelled as an infinite
  stream of raw natural-number draws `g : Nat → Nat` together with a
  position index that every generator function threads through.  Each
  call to a `random` primitive consumes exactly one raw draw:
  - `random.randint(a, b)`   ↦ `a + g p % (b + 1 - a)`
  - `random.randrange(a, b)` ↦ `a + g p % (b - a)`
  - `random.choice(xs)`      ↦ `xs[g p % xs.length]`
  - `random.random() < q`    ↦ a Bernoulli draw `g p % den < num`
    where `num/den = q` (the program only ever uses the comparison
    result of `random.random()`, never the float itself).
  `random.seed(s)` replaces the stream by `seedStream s`, a fixed
  deterministic function of the seed (abstracting MT19937; no claim
  depends on the concrete values, only on determinism and on which
  draws are consumed in which order).

* Python strings are lists of Unicode code points (`List Nat`); bytes
  are `List Nat` with entries < 256 produced by an explicit UTF-8
  encoder.  Python floats occur only as fixed catalog constants that
  are immediately serialized via `repr`, so a float value is modelled
  by its `repr` string (`JValue.jfloat`).

* The recursive value generator can consume unboundedly many draws, so
  it is embedded with explicit fuel: every generator function matches
  on a fuel argument and returns `none` when the fuel is exhausted.
  `∀ fuel, … = none` is divergence of the Python code on that draw
  stream; `= some r` means the Python code terminates with result `r`.
-/

/-- A pseudo-random draw stream: position `n` holds the `n`-th raw draw. -/
abbrev RNG := Nat → Nat

/-- `random.seed(s)`: the global generator state becomes a fixed
deterministic function of the seed alone (abstracting MT19937). -/
def seedStream (s : Int) : RNG := fun n => s.natAbs + n

/-- `random.randint(a, b)` (both ends inclusive), consuming one raw draw. -/
def randint (a b : Nat) (g : RNG) (p : Nat) : Nat × Nat :=
  (a + g p % (b + 1 - a), p + 1)

/-- `random.randrange(a, b)` (`b` exclusive), consuming one raw draw. -/
def randrange (a b : Nat) (g : RNG) (p : Nat) : Nat × Nat :=
  (a + g p % (b - a), p + 1)

/-- `random.random() < num/den`, modelled as a Bernoulli draw that
consumes one raw draw. -/
def randomLtFrac (num den : Nat) (g : RNG) (p : Nat) : Bool × Nat :=
  (decide (g p % den < num), p + 1)

/-- A JSON-representable Python value.  Strings are code-point lists;
floats are represented by their Python `repr` string (they are only
ever serialized); dictionaries are insertion-ordered key/value lists
with unique keys (Python `dict` semantics). -/
inductive JValue where
  | jnull : JValue
  | jbool : Bool → JValue
  | jint : Int → JValue
  | jfloat : List Nat → JValue
  | jstr : List Nat → JValue
  | jarr : List JValue → JValue
  | jobj : List (List Nat × JValue) → JValue
deriving Repr

/-- Python `dict` insertion: a repeated key overwrites the stored value
in place (the key keeps its first-insertion position); a new key is
appended at the tail. -/
def dictInsert : List (List Nat × JValue) → List Nat → JValue →
    List (List Nat × JValue)
  | [], k, v => [(k, v)]
  | e :: es, k, v =>
    if e.1 = k then (k, v) :: es else e :: dictInsert es k v

/-- The leaf-level data that differs between `ugly_json_server.py` and
`json_generator.py`: the character-range test in
`make_random_characters`, the two catalogs, and how the recursion
depth passed to entry `i` of a container at depth `d` is formed. -/
structure GenVariant where
  charTest : Nat → Bool
  stringCatalog : List (List Nat)
  scalarCatalog : List JValue
  childDepth : Nat → Nat → Nat

/-- One character of `make_random_characters`: a draw decides the range,
then `randrange` picks the code point (surrogates excluded by
construction of the two ranges). -/
def random_char (V : GenVariant) (g : RNG) (p : Nat) : Nat × Nat :=
  if V.charTest (g p) then randrange 0 0xd800 g (p + 1)
  else randrange 0xe000 0x110000 g (p + 1)

/-- The `''.join(random_char() for i in range(count))` loop. -/
def charsLoop (V : GenVariant) (g : RNG) : Nat → Nat → List Nat × Nat
  | 0, p => ([], p)
  | k + 1, p =>
    let (c, p1) := random_char V g p
    let (cs, p2) := charsLoop V g k p1
    (c :: cs, p2)

/-- `make_random_characters`: `randint(1, 4)` code points, each from
`[0, 0xD800)` or `[0xE000, 0x110000)`. -/
def make_random_characters (V : GenVariant) (g : RNG) (p : Nat) :
    List Nat × Nat :=
  let (cnt, p1) := randint 1 4 g p
  charsLoop V g cnt p1

/-- `make_random_scalar`: with probability 0.2 random characters,
otherwise a uniform choice from the scalar catalog. -/
def make_random_scalar (V : GenVariant) (g : RNG) (p : Nat) :
    JValue × Nat :=
  let (b, p1) := randomLtFrac 1 5 g p
  if b then
    let (s, p2) := make_random_characters V g p1
    (JValue.jstr s, p2)
  else
    (V.scalarCatalog.getD (g p1 % V.scalarCatalog.length) JValue.jnull,
     p1 + 1)

/-- `make_random_string`: with probability 0.2 random characters,
otherwise a uniform choice from the string catalog. -/
def make_random_string (V : GenVariant) (g : RNG) (p : Nat) :
    List Nat × Nat :=
  let (b, p1) := randomLtFrac 1 5 g p
  if b then make_random_characters V g p1
  else (V.stringCatalog.getD (g p1 % V.stringCatalog.length) [], p1 + 1)

mutual

/-- `make_random_value(depth)`: `randint(0, 4)`; 1 → list, 2 → dict,
otherwise a scalar.  Fuel-indexed: `none` means the fuel ran out. -/
def make_random_value (V : GenVariant) (g : RNG) :
    Nat → Nat → Nat → Option (JValue × Nat)
  | 0, _, _ => none
  | fuel + 1, depth, p =>
    let (c, p1) := randint 0 4 g p
    if c = 1 then
      match make_random_list V g fuel depth p1 with
      | none => none
      | some (xs, p2) => some (JValue.jarr xs, p2)
    else if c = 2 then
      match make_random_dict V g fuel depth p1 with
      | none => none
      | some (es, p2) => some (JValue.jobj es, p2)
    else
      let (v, p2) := make_random_scalar V g p1
      some (v, p2)

/-- `make_random_list(depth)`: length `randint(0, max(10 - depth, 1))`,
then that many entries. -/
def make_random_list (V : GenVariant) (g : RNG) :
    Nat → Nat → Nat → Option (List JValue × Nat)
  | 0, _, _ => none
  | fuel + 1, depth, p =>
    let maxlength := max (10 - depth) 1
    let (len, p1) := randint 0 maxlength g p
    listItems V g fuel depth 0 len p1

/-- The `[make_random_value(depth + …) for i in range(length)]`
comprehension; `i` is the 0-based entry index, `rem` the entries left. -/
def listItems (V : GenVariant) (g : RNG) :
    Nat → Nat → Nat → Nat → Nat → Option (List JValue × Nat)
  | 0, _, _, _, _ => none
  | _fuel + 1, _, _, 0, p => some ([], p)
  | fuel + 1, depth, i, rem + 1, p =>
    match make_random_value V g fuel (V.childDepth depth i) p with
    | none => none
    | some (v, p1) =>
      match listItems V g fuel depth (i + 1) rem p1 with
      | none => none
      | some (vs, p2) => some (v :: vs, p2)

/-- `make_random_dict(depth)`: length `randint(0, max(10 - depth, 1))`,
then that many key/value entries accumulated with Python `dict`
insertion semantics. -/
def make_random_dict (V : GenVariant) (g : RNG) :
    Nat → Nat → Nat → Option (List (List Nat × JValue) × Nat)
  | 0, _, _ => none
  | fuel + 1, depth, p =>
    let maxlength := max (10 - depth) 1
    let (len, p1) := randint 0 maxlength g p
    dictItems V g fuel depth 0 len [] p1

/-- The `{make_random_string(): make_random_value(depth + …) for i in
range(length)}` comprehension: per entry the key draws come first,
then the value draws (CPython evaluation order). -/
def dictItems (V : GenVariant) (g : RNG) :
    Nat → Nat → Nat → Nat → List (List Nat × JValue) → Nat →
    Option (List (List Nat × JValue) × Nat)
  | 0, _, _, _, _, _ => none
  | _fuel + 1, _, _, 0, acc, p => some (acc, p)
  | fuel + 1, depth, i, rem + 1, acc, p =>
    let (k, p1) := make_random_string V g p
    match make_random_value V g fuel (V.childDepth depth i) p1 with
    | none => none
    | some (v, p2) =>
      dictItems V g fuel depth (i + 1) rem (dictInsert acc k v) p2

end

set_option allowUnsafeReducibility true in
attribute [semireducible] make_random_value make_random_list listItems
  make_random_dict dictItems

/-- The scalar catalog of `ugly_json_server.py` (line 67), in source
order; strings are code-point lists, floats their `repr` strings. -/
def uglyScalarCatalog : List JValue := [
  JValue.jstr [121, 101, 115],
  JValue.jstr [110, 111],
  JValue.jstr [109, 97, 121, 98, 101],
  JValue.jstr [58, 41],
  JValue.jstr [],
  JValue.jstr [127093, 127114, 127111],
  JValue.jstr [91, 123, 34, 84, 104, 105, 115, 32, 108, 111, 111, 107,
    115, 32, 108, 105, 107, 101, 32, 74, 83, 79, 78, 34, 58, 32, 34, 98,
    117, 116, 32, 105, 116, 39, 115, 32, 97, 99, 116, 117, 97, 108, 108,
    121, 32, 97, 32, 115, 116, 114, 105, 110, 103, 34, 125, 93],
  JValue.jstr [39],
  JValue.jstr [34],
  JValue.jstr [104, 101, 108, 108, 111, 44, 32, 119, 111, 114, 108, 100],
  JValue.jstr [123],
  JValue.jstr [125],
  JValue.jstr [91],
  JValue.jstr [93],
  JValue.jstr [98, 97, 99, 107, 92, 115, 108, 97, 115, 104],
  JValue.jstr [92, 34, 92, 92],
  JValue.jstr [0],
  JValue.jstr [28450, 23383],
  JValue.jint (-1),
  JValue.jint 0,
  JValue.jint 1,
  JValue.jint 2,
  JValue.jint 3,
  JValue.jint 5,
  JValue.jint 8,
  JValue.jfloat [48, 46, 48],
  JValue.jint 10000,
  JValue.jfloat [54, 46, 50, 56, 51, 49, 56, 53],
  JValue.jfloat [54, 46, 48, 50, 101, 43, 50, 51],
  JValue.jfloat [49, 101, 45, 51, 48],
  JValue.jbool true,
  JValue.jbool false,
  JValue.jnull]

/-- The string catalog of `ugly_json_server.py` (line 83). -/
def uglyStringCatalog : List (List Nat) :=
  [[], [97], [117, 109], [102, 111, 111], [113, 117, 97, 99, 107],
   [44], [58], [34], [125, 123]]

/-- The scalar catalog of `json_generator.py` (line 40): additionally
holds `nan`, `inf`, `-inf` (serialized as the non-standard literals
`NaN`, `Infinity`, `-Infinity`) and `3.14159` instead of `6.283185`. -/
def jsonGenScalarCatalog : List JValue := [
  JValue.jstr [121, 101, 115],
  JValue.jstr [110, 111],
  JValue.jstr [109, 97, 121, 98, 101],
  JValue.jstr [58, 41],
  JValue.jstr [],
  JValue.jfloat [78, 97, 78],
  JValue.jfloat [73, 110, 102, 105, 110, 105, 116, 121],
  JValue.jfloat [45, 73, 110, 102, 105, 110, 105, 116, 121],
  JValue.jstr [127093, 127114, 127111],
  JValue.jstr [91, 123, 34, 84, 104, 105, 115, 32, 108, 111, 111, 107,
    115, 32, 108, 105, 107, 101, 32, 74, 83, 79, 78, 34, 58, 32, 34, 98,
    117, 116, 32, 105, 116, 39, 115, 32, 97, 99, 116, 117, 97, 108, 108,
    121, 32, 97, 32, 115, 116, 114, 105, 110, 103, 34, 125, 93],
  JValue.jstr [39],
  JValue.jstr [34],
  JValue.jstr [104, 101, 108, 108, 111, 44, 32, 119, 111, 114, 108, 100],
  JValue.jstr [123],
  JValue.jstr [125],
  JValue.jstr [91],
  JValue.jstr [93],
  JValue.jstr [98, 97, 99, 107, 92, 115, 108, 97, 115, 104],
  JValue.jstr [92, 34, 92, 92],
  JValue.jstr [0],
  JValue.jstr [28450, 23383],
  JValue.jint (-1),
  JValue.jint 0,
  JValue.jint 1,
  JValue.jint 2,
  JValue.jint 3,
  JValue.jint 5,
  JValue.jint 8,
  JValue.jfloat [48, 46, 48],
  JValue.jint 10000,
  JValue.jfloat [51, 46, 49, 52, 49, 53, 57],
  JValue.jfloat [54, 46, 48, 50, 101, 43, 50, 51],
  JValue.jfloat [49, 101, 45, 51, 48],
  JValue.jbool true,
  JValue.jbool false,
  JValue.jnull]

/-- The string catalog of `json_generator.py` (line 54): same as the
ugly-server one but without the final two-character brace string. -/
def jsonGenStringCatalog : List (List Nat) :=
  [[], [97], [117, 109], [102, 111, 111], [113, 117, 97, 99, 107],
   [44], [58], [34]]

/-- The generator variant of `ugly_json_server.py`: `random.random() <
0.9` picks the low character range, and entry `i` of a container at
depth `d` generates its value at depth `d + i + 1` (lines 96 and 107). -/
def uglyV : GenVariant where
  charTest := fun r => decide (r % 10 < 9)
  stringCatalog := uglyStringCatalog
  scalarCatalog := uglyScalarCatalog
  childDepth := fun d i => d + i + 1

/-- The generator variant of `json_generator.py`: `random.randint(0, 9)`
is truthy (≠ 0) for the low character range, and entry `i` of a
container at depth `d` generates its value at depth `d + i`
(lines 62 and 69 — no `+ 1`). -/
def jsonGenV : GenVariant where
  charTest := fun r => decide (r % 10 ≠ 0)
  stringCatalog := jsonGenStringCatalog
  scalarCatalog := jsonGenScalarCatalog
  childDepth := fun d i => d + i

/-- Modelled from the spec: the spec (§4.1) states that entry `i` of a
container generated at depth `d` receives depth `d + i + 1`.  This
variant applies that depth policy to the `json_generator.py` leaf
catalogs, so that it differs from `jsonGenV` in the depth policy only;
it is the comparison point for the claim that both files follow the
spec's depth policy. -/
def jsonGenSpecDepthV : GenVariant where
  charTest := fun r => decide (r % 10 ≠ 0)
  stringCatalog := jsonGenStringCatalog
  scalarCatalog := jsonGenScalarCatalog
  childDepth := fun d i => d + i + 1

/-- Lowercase hex digit (code point) of a nibble, as used by Python's
`\uXXXX` escapes. -/
def hexDigit (n : Nat) : Nat := if n < 10 then 48 + n else 87 + n

/-- A `\uXXXX` escape for one 16-bit unit. -/
def escU (c : Nat) : List Nat :=
  [92, 117, hexDigit (c / 4096 % 16), hexDigit (c / 256 % 16),
   hexDigit (c / 16 % 16), hexDigit (c % 16)]

/-- How `json.dumps` escapes one character of a string: the named
escapes for backslash, quote and the five control characters, `\u00xx`
for the other control characters; with `ensure_ascii` every character
above `~` becomes `\uXXXX` (a surrogate pair above `0xFFFF`), without
it everything else is emitted raw. -/
def escChar (ascii : Bool) (c : Nat) : List Nat :=
  if c = 34 then [92, 34]
  else if c = 92 then [92, 92]
  else if c = 8 then [92, 98]
  else if c = 9 then [92, 116]
  else if c = 10 then [92, 110]
  else if c = 12 then [92, 102]
  else if c = 13 then [92, 114]
  else if c < 32 then escU c
  else if !ascii then [c]
  else if c < 127 then [c]
  else if c < 65536 then escU c
  else escU (55296 + (c - 65536) / 1024) ++ escU (56320 + (c - 65536) % 1024)

/-- `json.dumps` string encoding: quote, escaped characters, quote. -/
def encStr (ascii : Bool) (s : List Nat) : List Nat :=
  34 :: ((s.map (escChar ascii)).flatten ++ [34])

/-- Decimal representation of a natural number, as code points. -/
def natRepr (n : Nat) : List Nat := (Nat.toDigits 10 n).map Char.toNat

/-- Python `str` of an integer. -/
def intRepr : Int → List Nat
  | Int.ofNat n => natRepr n
  | Int.negSucc n => 45 :: natRepr (n + 1)

/-- The newline-plus-indentation block `json.dumps` inserts when an
`indent` is given (nothing in compact mode). -/
def nlIndent (ind : Option Nat) (level : Nat) : List Nat :=
  match ind with
  | none => []
  | some i => 10 :: List.replicate (i * level) 32

/-- Join pieces with a separator. -/
def joinSep (sep : List Nat) : List (List Nat) → List Nat
  | [] => []
  | [x] => x
  | x :: y :: xs => x ++ sep ++ joinSep sep (y :: xs)

mutual

/-- `json.dumps(value, indent, ensure_ascii, separators)` at nesting
`level`, following CPython's encoder: empty containers are `{}`/`[]`;
with an indent, a newline plus `indent * level` spaces follows the
opening bracket and every item separator, and precedes the closing
bracket; floats print their `repr` (which is how the non-standard
`NaN`/`Infinity` literals arise). -/
def dumps (ind : Option Nat) (ascii : Bool) (isep ksep : List Nat)
    (level : Nat) : JValue → List Nat
  | JValue.jnull => [110, 117, 108, 108]
  | JValue.jbool true => [116, 114, 117, 101]
  | JValue.jbool false => [102, 97, 108, 115, 101]
  | JValue.jint n => intRepr n
  | JValue.jfloat r => r
  | JValue.jstr s => encStr ascii s
  | JValue.jarr [] => [91, 93]
  | JValue.jarr (x :: xs) =>
    91 :: (nlIndent ind (level + 1) ++
      joinSep (isep ++ nlIndent ind (level + 1))
        (dumpsList ind ascii isep ksep (level + 1) (x :: xs)) ++
      nlIndent ind level ++ [93])
  | JValue.jobj [] => [123, 125]
  | JValue.jobj (e :: es) =>
    123 :: (nlIndent ind (level + 1) ++
      joinSep (isep ++ nlIndent ind (level + 1))
        (dumpsEntries ind ascii isep ksep (level + 1) (e :: es)) ++
      nlIndent ind level ++ [125])

/-- Serialized forms of the items of an array. -/
def dumpsList (ind : Option Nat) (ascii : Bool) (isep ksep : List Nat)
    (level : Nat) : List JValue → List (List Nat)
  | [] => []
  | x :: xs =>
    dumps ind ascii isep ksep level x :: dumpsList ind ascii isep ksep level xs

/-- Serialized forms of the entries of an object: encoded key, the
key separator, serialized value. -/
def dumpsEntries (ind : Option Nat) (ascii : Bool) (isep ksep : List Nat)
    (level : Nat) : List (List Nat × JValue) → List (List Nat)
  | [] => []
  | (k, v) :: es =>
    (encStr ascii k ++ ksep ++ dumps ind ascii isep ksep level v) ::
      dumpsEntries ind ascii isep ksep level es

end

/-- UTF-8 encoding of one code point. -/
def utf8Char (c : Nat) : List Nat :=
  if c < 0x80 then [c]
  else if c < 0x800 then [0xc0 + c / 0x40, 0x80 + c % 0x40]
  else if c < 0x10000 then
    [0xe0 + c / 0x1000, 0x80 + c / 0x40 % 0x40, 0x80 + c % 0x40]
  else
    [0xf0 + c / 0x40000, 0x80 + c / 0x1000 % 0x40,
     0x80 + c / 0x40 % 0x40, 0x80 + c % 0x40]

/-- `text.encode('utf-8')`. -/
def utf8 (s : List Nat) : List Nat := (s.map utf8Char).flatten

/-- The eight-entry `indent` choice list of `make_random_json`
(six `None`, then 1, then 2). -/
def indentChoices : List (Option Nat) :=
  [none, none, none, none, none, none, some 1, some 2]

/-- The eight `(item_separator, key_separator)` pairs of
`make_random_json`, in source order. -/
def sepChoices : List (List Nat × List Nat) :=
  [([44, 32], [58, 32]),
   ([44, 32], [58, 32]),
   ([44, 32], [58, 32]),
   ([44], [58, 32]),
   ([44, 32], [58]),
   ([44], [58]),
   ([32, 44, 32], [32, 58, 32]),
   ([32, 32, 44], [58, 32, 32])]

/-- `make_random_json`: a random dictionary at depth 0, then the three
formatting draws (indent, `ensure_ascii`, separators), then
`json.dumps`.  Returns the serialized text as code points. -/
def make_random_json (V : GenVariant) (g : RNG) (fuel p : Nat) :
    Option (List Nat × Nat) :=
  match make_random_dict V g fuel 0 p with
  | none => none
  | some (es, p1) =>
    let (ind, p2) := (indentChoices.getD (g p1 % 8) none, p1 + 1)
    let (asc, p3) := (decide (g p2 % 2 = 0), p2 + 1)
    let (sp, p4) := (sepChoices.getD (g p3 % 8) ([44, 32], [58, 32]), p3 + 1)
    some (dumps ind asc sp.1 sp.2 0 (JValue.jobj es), p4)

/-- `make_random_chunk_size`: a fair draw between the boundary-size
catalog `[1, 2, 4, 1024]` and a uniform `randint(1, 1024)`. -/
def make_random_chunk_size (g : RNG) (p : Nat) : Nat × Nat :=
  let (c, p1) := randint 0 1 g p
  if c = 0 then ([1, 2, 4, 1024].getD (g p1 % 4) 1, p1 + 1)
  else randint 1 1024 g p1

/-- The mutable state of one `generate_chunks` session: the byte
buffer, the generated-value counter, the `under_limit` flag and the
position in the draw stream. -/
structure GenState where
  buf : List Nat
  count : Nat
  underLimit : Bool
  pos : Nat
deriving DecidableEq, Repr

/-- The inner top-up loop of `generate_chunks`: while the buffer holds
fewer bytes than the chunk size and `under_limit`, generate one JSON
text, append its UTF-8 bytes, bump the counter and recompute
`under_limit = (limit is None or count < limit)`.  Returns the final
state and the list of texts generated by this top-up, or `none` if
the fuel ran out. -/
def topUp (V : GenVariant) (g : RNG) :
    Nat → Option Int → Nat → GenState → Option (GenState × List (List Nat))
  | 0, _, _, _ => none
  | fuel + 1, limit, cs, st =>
    if st.buf.length < cs && st.underLimit then
      match make_random_json V g fuel st.pos with
      | none => none
      | some (t, p1) =>
        match topUp V g fuel limit cs
            ⟨st.buf ++ utf8 t, st.count + 1,
             (match limit with
              | none => true
              | some l => decide (((st.count + 1 : Nat) : Int) < l)), p1⟩ with
        | none => none
        | some (st1, ts) => some (st1, t :: ts)
    else some (st, [])

/-- The outer loop of `generate_chunks`: while `under_limit` or the
buffer is non-empty, draw a chunk size, top up, slice the chunk off
the head of the buffer and yield it.  Returns the yielded chunks, all
texts generated, the final counter, and whether the loop exited
normally (`true`) rather than running out of fuel (`false`) — with no
limit the loop never exits, which surfaces as the flag staying
`false` for every fuel. -/
def genLoop (V : GenVariant) (g : RNG) :
    Nat → Option Int → GenState →
    List (List Nat) × List (List Nat) × Nat × Bool
  | 0, _, st => ([], [], st.count, false)
  | fuel + 1, limit, st =>
    if st.underLimit || !st.buf.isEmpty then
      match make_random_chunk_size g st.pos with
      | (cs, p1) =>
        match topUp V g fuel limit cs ⟨st.buf, st.count, st.underLimit, p1⟩ with
        | none => ([], [], st.count, false)
        | some (st1, ts) =>
          match genLoop V g fuel limit
              ⟨st1.buf.drop cs, st1.count, st1.underLimit, st1.pos⟩ with
          | (chunks, texts, cnt, ended) =>
            (st1.buf.take cs :: chunks, ts ++ texts, cnt, ended)
    else ([], [], st.count, true)

namespace Ugly

/-- `generate_chunks(limit, seed)` of `ugly_json_server.py`: if a seed
is supplied the global stream is reseeded, otherwise the ambient
global stream is consumed; the buffer starts empty, the counter at 0
and `under_limit` at `True` (regardless of the limit's value). -/
def generate_chunks (fuel : Nat) (limit : Option Int) (seed : Option Int)
    (ambient : RNG) : List (List Nat) × List (List Nat) × Nat × Bool :=
  let g := match seed with
    | some s => seedStream s
    | none => ambient
  genLoop uglyV g fuel limit ⟨[], 0, true, 0⟩

end Ugly

namespace JsonGen

/-- `generate_chunks()` of `json_generator.py`: unconditionally calls
`random.seed(0)`, then streams forever (no limit, no counter).  The
ambient global stream is therefore never consumed. -/
def generate_chunks (fuel : Nat) (_ambient : RNG) :
    List (List Nat) × List (List Nat) × Nat × Bool :=
  genLoop jsonGenV (seedStream 0) fuel none ⟨[], 0, true, 0⟩

end JsonGen

mutual

/-- Structural nesting depth of a value: scalars are 0, a container is
one more than the deepest child (an empty container is 1). -/
def structDepth : JValue → Nat
  | JValue.jarr xs => 1 + structDepthList xs
  | JValue.jobj es => 1 + structDepthEntries es
  | _ => 0

/-- Deepest nesting among a list of values. -/
def structDepthList : List JValue → Nat
  | [] => 0
  | x :: xs => max (structDepth x) (structDepthList xs)

/-- Deepest nesting among the values of an entry list. -/
def structDepthEntries : List (List Nat × JValue) → Nat
  | [] => 0
  | (_, v) :: es => max (structDepth v) (structDepthEntries es)

end

/-- The run of `generate_chunks` with this limit, seed and ambient
stream never exits its loop normally, however much fuel it is given —
i.e. the Python generator never reaches the end of its sequence. -/
def neverCompletes (limit : Option Int) (seed : Option Int)
    (amb : RNG) : Prop :=
  ∀ fuel, (Ugly.generate_chunks fuel limit seed amb).2.2.2 = false

/-- Draw stream for a minimal run: boundary chunk size 1024, then one
empty dictionary serialized compactly. -/
def gTiny : RNG := fun n => [0, 3, 0, 0, 0, 0].getD n 0

/-- Draw stream making `make_random_value` at depth 9 produce a
dictionary containing a dictionary containing a dictionary. -/
def gNest : RNG := fun n => [2, 1, 1, 0, 2, 1, 1, 0, 2, 0].getD n 0

/-- Draw stream making `make_random_dict` draw two entries whose keys
are both the empty string (the first value drawn is `yes`, the second
`no`). -/
def gDup : RNG := fun n => [2, 1, 0, 0, 1, 0, 1, 0, 0, 1, 1].getD n 0

/-- Draw stream making `make_random_dict` draw two entries with the
distinct keys `''` and `'a'`. -/
def gNod : RNG := fun n => [2, 1, 0, 0, 1, 0, 1, 1, 0, 1, 0].getD n 0

/-- Draw stream for a dictionary at depth 8 with one entry whose value
is again a dictionary; the raw draw 2 for the inner length yields two
entries at inner depth 8 (`json_generator.py` policy) but zero entries
at inner depth 9 (the spec's `d + i + 1` policy). -/
def gDepth8 : RNG :=
  fun n => [1, 1, 0, 2, 2, 1, 0, 0, 1, 0, 1, 1, 0, 1, 0].getD n 0

/-- Draw stream making `make_random_list` at depth 0 draw the maximal
length 10 with all-scalar entries. -/
def gLenTen : RNG :=
  fun n => if n = 0 then 10 else [0, 1, 0].getD ((n - 1) % 3) 0

/-- Draw stream making `make_random_dict` at depth 9 draw one entry
with a scalar value. -/
def gNine : RNG := fun n => [1, 1, 0, 0, 1, 0].getD n 0

/-- The adversarial draw stream, 4-periodic with pattern 2, 1, 1, 0:
every value choice picks a dictionary, every length draw is 1, every
key comes from the catalog — so value generation recurses forever. -/
def advStream : RNG := fun n =>
  if n % 4 = 0 then 2 else if n % 4 = 3 then 0 else 1

/-- The adversarial stream prefixed with a chunk-size draw (size 1) and
the top-level dictionary's length/key draws (prefix 1, 0, 1, 1, 0), so
that `generate_chunks` with limit 1 runs into the same endless value
recursion from position 5 on. -/
def advChunk : RNG := fun n =>
  if n < 5 then (if n = 1 ∨ n = 4 then 0 else 1)
  else if (n - 5) % 4 = 0 then 2 else if (n - 5) % 4 = 3 then 0 else 1

/-- C1: with the same seed `s` and the same limit, two runs of
`generate_chunks` yield identical chunk sequences — byte-identical
concatenated output and the same ordered list of chunk lengths —
whatever ambient global generator states the two runs would otherwise
have consumed, because `random.seed(s)` makes every subsequent draw a
function of `s` alone, consumed in a fixed order. -/
theorem C1_seeded_determinism (fuel : Nat) (limit : Option Int) (s : Int)
    (amb1 amb2 : RNG) :
    Ugly.generate_chunks fuel limit (some s) amb1 =
      Ugly.generate_chunks fuel limit (some s) amb2 ∧
    (Ugly.generate_chunks fuel limit (some s) amb1).1.map List.length =
      (Ugly.generate_chunks fuel limit (some s) amb2).1.map List.length ∧
    (Ugly.generate_chunks fuel limit (some s) amb1).1.flatten =
      (Ugly.generate_chunks fuel limit (some s) amb2).1.flatten :=
  ⟨rfl, rfl, rfl⟩

/-- C2 counterexample: at depth 9 the draws of `gNest` make
`make_random_value` return a dictionary containing a dictionary
containing a dictionary — structural nesting 3, i.e. generation
recursed two further levels below depth 9, not at most one. -/
theorem C2_counterexample :
    make_random_value uglyV gNest 20 9 0 =
      some (JValue.jobj [([], JValue.jobj [([], JValue.jobj [])])], 10) ∧
    2 < structDepth (JValue.jobj [([], JValue.jobj [([], JValue.jobj [])])]) :=
  ⟨rfl, by decide⟩

/-- C3: with limit 0 (and likewise any limit ≤ 0, here −1),
`generate_chunks` does not produce zero values and end immediately:
`under_limit` is initialized to `True`, so the first top-up generates
exactly one JSON object (the counter reaches 1) and its bytes are
yielded before the sequence ends. -/
theorem C3_limit_zero_generates_one :
    Ugly.generate_chunks 10 (some 0) none gTiny =
      ([[123, 125]], [[123, 125]], 1, true) ∧
    Ugly.generate_chunks 10 (some (-1)) none gTiny =
      ([[123, 125]], [[123, 125]], 1, true) := by
  constructor <;> decide

/-- C9 counterexample: `generate_chunks` of `json_generator.py` calls
`random.seed(0)` unconditionally, so two invocations — whatever
ambient generator states they start from — produce identical,
non-empty chunk sequences, contradicting non-reproducibility of
unseeded sessions. -/
theorem C9_counterexample :
    JsonGen.generate_chunks 6 (fun _ => 5) =
      JsonGen.generate_chunks 6 (fun _ => 7) ∧
    (JsonGen.generate_chunks 6 (fun _ => 5)).1 = [[123, 34], [113, 117]] :=
  ⟨rfl, by decide⟩

/-- C9 amended: `json_generator.py`'s chunk generator reseeds with the
constant 0 and is therefore fully reproducible across invocations;
`ugly_json_server.py`'s chunk generator with `seed=None` performs no
reseeding and consumes the ambient global generator state, so runs
from different ambient states can differ (it is as non-reproducible as
that ambient state). -/
theorem C9_amended_reseeding :
    (∀ fuel : Nat, ∀ amb1 amb2 : RNG,
      JsonGen.generate_chunks fuel amb1 = JsonGen.generate_chunks fuel amb2) ∧
    Ugly.generate_chunks 6 none none (fun n => n) ≠
      Ugly.generate_chunks 6 none none (fun _ => 0) :=
  ⟨fun _ _ _ => rfl, by decide⟩

/-- C6 counterexample: `make_random_dict` of `json_generator.py`
generates entry `i` at depth `d + i`, not `d + i + 1`: on the draws of
`gDepth8` at depth 8 it disagrees with the spec's depth policy (same
leaf catalogs, entry depth `d + i + 1`) — the inner dictionary is
generated at depth 8 instead of 9, so its length draw 2 yields two
entries instead of zero, and the two runs even consume different
numbers of draws (final positions 15 versus 5). -/
theorem C6_counterexample :
    make_random_dict jsonGenV gDepth8 30 8 0 =
      some ([([], JValue.jobj [([], JValue.jstr [121, 101, 115]),
        ([97], JValue.jstr [121, 101, 115])])], 15) ∧
    make_random_dict jsonGenSpecDepthV gDepth8 30 8 0 =
      some ([([], JValue.jobj [])], 5) ∧
    (make_random_dict jsonGenV gDepth8 30 8 0).map Prod.snd ≠
      (make_random_dict jsonGenSpecDepthV gDepth8 30 8 0).map Prod.snd :=
  ⟨rfl, rfl, by decide⟩

/-- C8 counterexample: on the draws of `gDup` the dictionary length
draw is 2 and both entry keys are the empty string, yet the returned
object holds a single entry: Python `dict` semantics collapse the
duplicate, the later value (`no`) overwriting the earlier one (`yes`)
in place — no object with duplicate keys can be produced. -/
theorem C8_counterexample :
    (randint 0 10 gDup 0).1 = 2 ∧
    make_random_string uglyV gDup 1 = ([], 3) ∧
    make_random_string uglyV gDup 6 = ([], 8) ∧
    make_random_dict uglyV gDup 20 0 0 =
      some ([([], JValue.jstr [110, 111])], 11) :=
  ⟨by decide, by decide, by decide, rfl⟩

/-- Every UTF-8 encoded code point occupies at least one byte. -/
lemma one_le_length_utf8Char (c : Nat) : 1 ≤ (utf8Char c).length := by
  unfold utf8Char
  split
  · simp
  · split
    · simp
    · split <;> simp

/-- UTF-8 encoding never shortens a code-point sequence. -/
lemma le_length_utf8 (s : List Nat) : s.length ≤ (utf8 s).length := by
  induction s with
  | nil => simp [utf8]
  | cons c s ih =>
    have h1 := one_le_length_utf8Char c
    simp only [utf8, List.map_cons, List.flatten_cons, List.length_append,
      List.length_cons] at *
    omega

/-- A serialized object is at least two characters long (it is `{}` or
starts with `{` and ends with `}`). -/
lemma two_le_length_dumps_jobj (ind : Option Nat) (asc : Bool)
    (isep ksep : List Nat) (lvl : Nat) (es : List (List Nat × JValue)) :
    2 ≤ (dumps ind asc isep ksep lvl (JValue.jobj es)).length := by
  cases es with
  | nil => simp [dumps]
  | cons e es => simp [dumps]; omega

/-- Whatever `make_random_json` returns is at least two characters long
and is the `dumps` serialization of some object value. -/
lemma make_random_json_spec (V : GenVariant) (g : RNG) (fuel p : Nat)
    (t : List Nat) (p1 : Nat)
    (h : make_random_json V g fuel p = some (t, p1)) :
    2 ≤ t.length ∧
    ∃ es ind asc isep ksep, t = dumps ind asc isep ksep 0 (JValue.jobj es) := by
  unfold make_random_json at h
  cases hd : make_random_dict V g fuel 0 p with
  | none => rw [hd] at h; exact absurd h (by simp)
  | some r =>
    rw [hd] at h
    simp only [Option.some.injEq, Prod.mk.injEq] at h
    obtain ⟨ht, -⟩ := h
    subst ht
    exact ⟨two_le_length_dumps_jobj _ _ _ _ _ _, r.1, _, _, _, _, rfl⟩

/-- The chunk size drawn by `make_random_chunk_size` is always between
1 and 1024 inclusive. -/
lemma chunk_size_bounds (g : RNG) (p : Nat) :
    1 ≤ (make_random_chunk_size g p).1 ∧
      (make_random_chunk_size g p).1 ≤ 1024 := by
  have h4 : ∀ i, i < 4 →
      1 ≤ [1, 2, 4, 1024].getD i 1 ∧ [1, 2, 4, 1024].getD i 1 ≤ 1024 := by
    decide
  by_cases hc : g p % 2 = 0
  · simpa [make_random_chunk_size, randint, hc] using
      h4 _ (Nat.mod_lt _ (by norm_num))
  · simp [make_random_chunk_size, randint, hc]
    omega

/-- Every code point produced by `random_char` lies in
`[0, 0xD800) ∪ [0xE000, 0x110000)` — never in the surrogate range. -/
lemma random_char_ok (V : GenVariant) (g : RNG) (p : Nat) :
    ((random_char V g p).1 < 0xd800 ∨
      (0xe000 ≤ (random_char V g p).1 ∧ (random_char V g p).1 < 0x110000)) := by
  unfold random_char randrange
  split
  · left
    simpa using @Nat.mod_lt (g (p + 1)) 0xd800 (by norm_num)
  · right
    have := @Nat.mod_lt (g (p + 1)) (0x110000 - 0xe000) (by norm_num)
    constructor
    · simp
    · simp; omega

/-- The character loop returns exactly `k` code points, all inside the
two allowed ranges. -/
lemma charsLoop_spec (V : GenVariant) (g : RNG) : ∀ k p,
    (charsLoop V g k p).1.length = k ∧
    (charsLoop V g k p).1.all (fun c =>
      decide (c < 0xd800) ||
        (decide (0xe000 ≤ c) && decide (c < 0x110000))) = true := by
  intro k
  induction k with
  | zero => intro p; simp [charsLoop]
  | succ k ih =>
    intro p
    have hc := random_char_ok V g p
    have ihp := ih (random_char V g p).2
    simp only [charsLoop, List.length_cons, List.all_cons]
    refine ⟨by rw [ihp.1], ?_⟩
    rw [ihp.2]
    rcases hc with h | ⟨h1, h2⟩
    · simp [h]
    · simp [h1, h2]

/-- The string returned by `make_random_characters` has between 1 and 4
code points, all inside the two allowed ranges. -/
lemma make_random_characters_spec (V : GenVariant) (g : RNG) (p : Nat) :
    1 ≤ (make_random_characters V g p).1.length ∧
    (make_random_characters V g p).1.length ≤ 4 ∧
    (make_random_characters V g p).1.all (fun c =>
      decide (c < 0xd800) ||
        (decide (0xe000 ≤ c) && decide (c < 0x110000))) = true := by
  unfold make_random_characters randint
  have hs := charsLoop_spec V g (1 + g p % 4) (p + 1)
  have hm := @Nat.mod_lt (g p) 4 (by norm_num)
  exact ⟨by rw [hs.1]; omega, by rw [hs.1]; omega, hs.2⟩

/-- C7: both files' `make_random_characters` return between 1 and 4
code points, every one below `U+D800` or in `[U+E000, U+10FFFF]`; the
surrogate range is unreachable by construction. -/
theorem C7_characters_range (g : RNG) (p : Nat) :
    (1 ≤ (make_random_characters uglyV g p).1.length ∧
      (make_random_characters uglyV g p).1.length ≤ 4 ∧
      (make_random_characters uglyV g p).1.all (fun c =>
        decide (c < 0xd800) ||
          (decide (0xe000 ≤ c) && decide (c < 0x110000))) = true) ∧
    (1 ≤ (make_random_characters jsonGenV g p).1.length ∧
      (make_random_characters jsonGenV g p).1.length ≤ 4 ∧
      (make_random_characters jsonGenV g p).1.all (fun c =>
        decide (c < 0xd800) ||
          (decide (0xe000 ≤ c) && decide (c < 0x110000))) = true) :=
  ⟨make_random_characters_spec uglyV g p,
   make_random_characters_spec jsonGenV g p⟩

/-- The keys of a `dictInsert` result: unchanged when the key was
already present, otherwise the key is appended. -/
lemma dictInsert_keys (es : List (List Nat × JValue)) (k : List Nat)
    (v : JValue) :
    (dictInsert es k v).map Prod.fst =
      if k ∈ es.map Prod.fst then es.map Prod.fst
      else es.map Prod.fst ++ [k] := by
  induction es with
  | nil => simp [dictInsert]
  | cons e es ih =>
    by_cases he : e.1 = k
    · simp [dictInsert, he]
    · by_cases hm : k ∈ es.map Prod.fst <;>
        simp [dictInsert, he, hm, ih, Ne.symm he]

/-- `dictInsert` grows the entry list by at most one. -/
lemma dictInsert_length (es : List (List Nat × JValue)) (k : List Nat)
    (v : JValue) :
    (dictInsert es k v).length ≤ es.length + 1 := by
  induction es with
  | nil => simp [dictInsert]
  | cons e es ih =>
    by_cases he : e.1 = k <;> simp [dictInsert, he]
    omega

/-- `dictInsert` preserves distinctness of the keys. -/
lemma dictInsert_nodup (es : List (List Nat × JValue)) (k : List Nat)
    (v : JValue) (h : (es.map Prod.fst).Nodup) :
    ((dictInsert es k v).map Prod.fst).Nodup := by
  rw [dictInsert_keys]
  split
  · exact h
  · next hk =>
    refine List.Nodup.append h (List.nodup_singleton k) ?_
    intro a ha hb
    rw [List.mem_singleton] at hb
    exact hk (hb ▸ ha)

/-- The dictionary-comprehension loop adds at most `rem` entries and
keeps the keys distinct. -/
lemma dictItems_spec (V : GenVariant) (g : RNG) :
    ∀ fuel depth i rem acc p es p1,
    dictItems V g fuel depth i rem acc p = some (es, p1) →
    es.length ≤ acc.length + rem ∧
    ((acc.map Prod.fst).Nodup → (es.map Prod.fst).Nodup) := by
  intro fuel
  induction fuel with
  | zero => intro depth i rem acc p es p1 h; exact absurd h (by simp [dictItems])
  | succ fuel ih =>
    intro depth i rem acc p es p1 h
    cases rem with
    | zero =>
      simp only [dictItems, Option.some.injEq, Prod.mk.injEq] at h
      obtain ⟨rfl, -⟩ := h
      exact ⟨by omega, fun hn => hn⟩
    | succ rem =>
      simp only [dictItems] at h
      split at h
      · exact absurd h (by simp)
      · next v p2 heq =>
        have := ih depth (i + 1) rem _ _ _ _ h
        have hlen := dictInsert_length acc (make_random_string V g p).1 v
        refine ⟨by omega, fun hn => this.2 (dictInsert_nodup _ _ _ hn)⟩

/-- The list-comprehension loop returns exactly `rem` entries. -/
lemma listItems_length (V : GenVariant) (g : RNG) :
    ∀ fuel depth i rem p xs p1,
    listItems V g fuel depth i rem p = some (xs, p1) → xs.length = rem := by
  intro fuel
  induction fuel with
  | zero => intro depth i rem p xs p1 h; exact absurd h (by simp [listItems])
  | succ fuel ih =>
    intro depth i rem p xs p1 h
    cases rem with
    | zero =>
      simp only [listItems, Option.some.injEq, Prod.mk.injEq] at h
      obtain ⟨rfl, -⟩ := h
      rfl
    | succ rem =>
      simp only [listItems] at h
      split at h
      · exact absurd h (by simp)
      · next v p2 heq =>
        split at h
        · exact absurd h (by simp)
        · next vs p3 heq2 =>
          simp only [Option.some.injEq, Prod.mk.injEq] at h
          obtain ⟨rfl, -⟩ := h
          simp [ih depth (i + 1) rem _ _ _ heq2]

/-- A generated dictionary has at most `max(10 - depth, 1)` entries and
its keys are distinct. -/
lemma make_random_dict_spec (V : GenVariant) (g : RNG) (fuel depth p : Nat)
    (es : List (List Nat × JValue)) (p1 : Nat)
    (h : make_random_dict V g fuel depth p = some (es, p1)) :
    es.length ≤ max (10 - depth) 1 ∧ (es.map Prod.fst).Nodup := by
  cases fuel with
  | zero => exact absurd h (by simp [make_random_dict])
  | succ fuel =>
    simp only [make_random_dict, randint] at h
    have hs := dictItems_spec V g fuel depth 0
      (0 + g p % (max (10 - depth) 1 + 1 - 0)) [] (p + 1) es p1 h
    have hm := @Nat.mod_lt (g p) (max (10 - depth) 1 + 1 - 0) (by omega)
    exact ⟨by simp at hs hm ⊢; omega, hs.2 (by simp)⟩

/-- A generated list has at most `max(10 - depth, 1)` entries. -/
lemma make_random_list_spec (V : GenVariant) (g : RNG) (fuel depth p : Nat)
    (xs : List JValue) (p1 : Nat)
    (h : make_random_list V g fuel depth p = some (xs, p1)) :
    xs.length ≤ max (10 - depth) 1 := by
  cases fuel with
  | zero => exact absurd h (by simp [make_random_list])
  | succ fuel =>
    simp only [make_random_list, randint] at h
    have hs := listItems_length V g fuel depth 0
      (0 + g p % (max (10 - depth) 1 + 1 - 0)) (p + 1) xs p1 h
    have hm := @Nat.mod_lt (g p) (max (10 - depth) 1 + 1 - 0) (by omega)
    simp at hs hm
    omega

/-- C8 amended: by Python `dict` semantics the object returned by
`make_random_dict` (in either file) always has pairwise-distinct keys:
a colliding key draw overwrites the earlier value in place instead of
adding a duplicate entry. -/
theorem C8_amended_keys_unique (V : GenVariant) (g : RNG)
    (fuel depth p : Nat) (es : List (List Nat × JValue)) (p1 : Nat)
    (h : make_random_dict V g fuel depth p = some (es, p1)) :
    (es.map Prod.fst).Nodup :=
  (make_random_dict_spec V g fuel depth p es p1 h).2

/-- C8 witness: a concrete dictionary generation with two distinct
drawn keys, whose result has distinct keys. -/
theorem C8_witness :
    (([([], JValue.jstr [121, 101, 115]),
       ([97], JValue.jstr [121, 101, 115])].map Prod.fst)).Nodup :=
  C8_amended_keys_unique uglyV gNod 20 0 0 _ 11 rfl

/-- C6 amended: `ugly_json_server.py` generates entry `i` of a
depth-`d` container at depth `d + i + 1` exactly as claimed, but
`json_generator.py` uses depth `d + i`; in both files the drawn length
is bounded by `max(10 - d, 1)` (an object can end up smaller through
key collisions), and the upper endpoint is attained — a concrete
depth-0 list with exactly 10 entries. -/
theorem C6_amended_depth_policy :
    uglyV.childDepth = (fun d i => d + i + 1) ∧
    jsonGenV.childDepth = (fun d i => d + i) ∧
    (∀ V : GenVariant, ∀ g : RNG, ∀ fuel d p xs p1,
      make_random_list V g fuel d p = some (xs, p1) →
      xs.length ≤ max (10 - d) 1) ∧
    (∀ V : GenVariant, ∀ g : RNG, ∀ fuel d p es p1,
      make_random_dict V g fuel d p = some (es, p1) →
      es.length ≤ max (10 - d) 1) ∧
    make_random_list uglyV gLenTen 40 0 0 =
      some (List.replicate 10 (JValue.jstr [121, 101, 115]), 31) :=
  ⟨rfl, rfl,
   fun V g fuel d p xs p1 h => make_random_list_spec V g fuel d p xs p1 h,
   fun V g fuel d p es p1 h => (make_random_dict_spec V g fuel d p es p1 h).1,
   rfl⟩

/-- C6 witness: the length bound instantiated on a concrete dictionary
generation at depth 0. -/
theorem C6_witness :
    ([([], JValue.jstr [121, 101, 115]),
      ([97], JValue.jstr [121, 101, 115])] :
        List (List Nat × JValue)).length ≤ max (10 - 0) 1 :=
  C6_amended_depth_policy.2.2.2.1 uglyV gNod 20 0 0 _ 11 rfl

/-- Full characterization of one completed top-up phase: the buffer
grows by exactly the UTF-8 bytes of the generated texts and the
counter by their number; on exit the buffer holds at least the chunk
size or `under_limit` has fallen; the flag can only fall, and a fall
means at least one text was generated; every text is a ≥2-character
object serialization; with a limit the flag tracks `count < limit`
and the counter cannot overshoot the limit; without a limit the flag
stays up; and each iteration starts below the chunk size and adds at
least 2 bytes, bounding the number of iterations. -/
lemma topUp_spec (V : GenVariant) (g : RNG) :
    ∀ fuel limit cs st st1 ts,
    topUp V g fuel limit cs st = some (st1, ts) →
    st1.buf = st.buf ++ (ts.map utf8).flatten ∧
    st1.count = st.count + ts.length ∧
    (st1.underLimit = true → st.underLimit = true) ∧
    (cs ≤ st1.buf.length ∨ st1.underLimit = false) ∧
    (st.underLimit = true → st1.underLimit = false → ts ≠ []) ∧
    (∀ t ∈ ts, 2 ≤ t.length ∧
      ∃ es ind asc isep ksep, t = dumps ind asc isep ksep 0 (JValue.jobj es)) ∧
    (ts = [] → st1 = st) ∧
    (∀ n : Int, limit = some n →
      st.underLimit = decide ((st.count : Int) < n) →
      st1.underLimit = decide ((st1.count : Int) < n) ∧
      ((st.count : Int) ≤ n → (st1.count : Int) ≤ n)) ∧
    (limit = none → st.underLimit = true → st1.underLimit = true) ∧
    (ts = [] ∨ st.buf.length + 2 * (ts.length - 1) < cs) := by
  intro fuel
  induction fuel with
  | zero => intro limit cs st st1 ts h; exact absurd h (by simp [topUp])
  | succ fuel ih =>
    intro limit cs st st1 ts h
    simp only [topUp] at h
    split at h
    · next hcond =>
      rw [Bool.and_eq_true, decide_eq_true_eq] at hcond
      obtain ⟨hlt, hul⟩ := hcond
      cases hj : make_random_json V g fuel st.pos with
      | none => simp only [hj] at h; exact absurd h (by simp)
      | some r =>
        obtain ⟨t, p1⟩ := r
        simp only [hj] at h
        split at h
        · exact absurd h (by simp)
        next st2 ts2 ht =>
          simp only [Option.some.injEq, Prod.mk.injEq] at h
          obtain ⟨rfl, rfl⟩ := h
          have IH := ih limit cs _ _ _ ht
          obtain ⟨ib, ic, iu, ige, -, itx, -, ilim, inone, ibound⟩ := IH
          dsimp only at ib ic iu ilim inone ibound
          have hjs := make_random_json_spec V g fuel st.pos t p1 hj
          have hutf : 2 ≤ (utf8 t).length := le_trans hjs.1 (le_length_utf8 t)
          refine ⟨?_, ?_, fun _ => hul, ige, fun _ _ => by simp, ?_, by simp,
            ?_, ?_, ?_⟩
          · rw [ib, List.map_cons, List.flatten_cons, List.append_assoc]
          · rw [ic, List.length_cons]; omega
          · intro t' ht'
            rcases List.mem_cons.mp ht' with rfl | hmem
            · exact hjs
            · exact itx t' hmem
          · intro n hln hwf
            subst hln
            have hmid := ilim n rfl rfl
            refine ⟨hmid.1, fun _ => hmid.2 ?_⟩
            have : (st.count : Int) < n :=
              of_decide_eq_true (hwf.symm.trans hul)
            omega
          · intro hln _
            subst hln
            exact inone rfl rfl
          · right
            rcases ibound with h0 | hb
            · subst h0; simpa using hlt
            · rw [List.length_append] at hb
              simp only [List.length_cons]
              omega
    · next hcond =>
      simp only [Option.some.injEq, Prod.mk.injEq] at h
      obtain ⟨rfl, rfl⟩ := h
      rw [Bool.and_eq_true, decide_eq_true_eq] at hcond
      push_neg at hcond
      refine ⟨by simp, by simp, fun hu => hu, ?_, ?_, by simp, fun _ => rfl,
        fun n _ hwf => ⟨hwf, fun hc => hc⟩, fun _ hu => hu, Or.inl rfl⟩
      · by_cases hu : st.underLimit = true
        · exact Or.inl (le_of_not_lt (fun hc => by simp [hu] at hcond; omega))
        · exact Or.inr (by revert hu; cases st.underLimit <;> simp)
      · intro hu1 hu2
        rw [hu1] at hu2
        exact absurd hu2 (by simp)

/-- Every chunk the outer loop yields has between 1 and 1024 bytes:
the sliced length is `min(chunk_size, len(buf))`, the chunk size is in
`[1, 1024]`, and at slicing time the buffer is never empty. -/
lemma genLoop_chunks_bounded (V : GenVariant) (g : RNG) :
    ∀ fuel limit st,
    ((genLoop V g fuel limit st).1).all
      (fun c => decide (1 ≤ c.length) && decide (c.length ≤ 1024)) = true := by
  intro fuel
  induction fuel with
  | zero => intro limit st; simp [genLoop]
  | succ fuel ih =>
    intro limit st
    simp only [genLoop]
    split
    · next hcond =>
      rcases hcs : make_random_chunk_size g st.pos with ⟨cs, p1⟩
      simp only [hcs]
      have hb := chunk_size_bounds g st.pos
      rw [hcs] at hb
      cases ht : topUp V g fuel limit cs
          ⟨st.buf, st.count, st.underLimit, p1⟩ with
      | none => simp
      | some r =>
        obtain ⟨st1, ts⟩ := r
        rcases hrest : genLoop V g fuel limit
            ⟨st1.buf.drop cs, st1.count, st1.underLimit, st1.pos⟩ with
          ⟨chunks, texts, cnt, ended⟩
        simp only [hrest]
        have ihc := ih limit ⟨st1.buf.drop cs, st1.count, st1.underLimit, st1.pos⟩
        rw [hrest] at ihc
        obtain ⟨sb, -, -, sge, sflip, stx, -, -, -, -⟩ :=
          topUp_spec V g fuel limit cs _ _ _ ht
        dsimp only at sb sge sflip
        have hne : 1 ≤ st1.buf.length := by
          rcases sge with hge | hulf
          · omega
          · cases hst : st.underLimit with
            | true =>
              have hts := sflip hst hulf
              cases ts with
              | nil => exact absurd rfl hts
              | cons t ts' =>
                have h2 : 2 ≤ t.length := (stx t (by simp)).1
                have h3 : 2 ≤ (utf8 t).length :=
                  le_trans h2 (le_length_utf8 t)
                rw [sb]
                simp only [List.map_cons, List.flatten_cons,
                  List.length_append]
                omega
            | false =>
              rw [hst] at hcond
              simp only [Bool.false_or, Bool.not_eq_eq_eq_not, Bool.not_false,
                List.isEmpty_eq_true] at hcond
              have : st.buf ≠ [] := by
                intro hnil
                rw [hnil] at hcond
                simp at hcond
              have : 1 ≤ st.buf.length := by
                cases hb2 : st.buf with
                | nil => exact absurd hb2 this
                | cons a l => simp
              rw [sb, List.length_append]
              omega
        simp only [List.all_cons, ihc, Bool.and_true, Bool.and_eq_true,
          decide_eq_true_eq, List.length_take]
        omega
    · simp

/-- C4: every chunk yielded by `generate_chunks`, for every seed and
every limit (present or absent, of any value), has between 1 and 1024
bytes — in particular the segmenter never yields a zero-length chunk. -/
theorem C4_chunk_length_bounds (fuel : Nat) (limit : Option Int)
    (seed : Option Int) (amb : RNG) :
    ((Ugly.generate_chunks fuel limit seed amb).1).all
      (fun c => decide (1 ≤ c.length) && decide (c.length ≤ 1024)) = true := by
  unfold Ugly.generate_chunks
  cases seed <;> exact genLoop_chunks_bounded _ _ fuel limit _

/-- Characterization of a run of the outer loop that exits normally:
the yielded chunks concatenate to the initial buffer plus the UTF-8
bytes of all generated texts, the final counter is the initial one
plus the number of texts, each text is a ≥2-character object
serialization, and with limit `n` (when the `under_limit` flag starts
in its invariant state and the counter starts at most `n`) the final
counter is exactly `n`. -/
lemma genLoop_completed (V : GenVariant) (g : RNG) :
    ∀ fuel limit st chunks texts cnt,
    genLoop V g fuel limit st = (chunks, texts, cnt, true) →
    chunks.flatten = st.buf ++ (texts.map utf8).flatten ∧
    cnt = st.count + texts.length ∧
    (∀ t ∈ texts, 2 ≤ t.length ∧
      ∃ es ind asc isep ksep, t = dumps ind asc isep ksep 0 (JValue.jobj es)) ∧
    (∀ n : Int, limit = some n →
      st.underLimit = decide ((st.count : Int) < n) →
      (st.count : Int) ≤ n → (cnt : Int) = n) := by
  intro fuel
  induction fuel with
  | zero =>
    intro limit st chunks texts cnt h
    exact absurd h (by simp [genLoop])
  | succ fuel ih =>
    intro limit st chunks texts cnt h
    simp only [genLoop] at h
    split at h
    · next hcond =>
      rcases hcs : make_random_chunk_size g st.pos with ⟨cs, p1⟩
      rw [hcs] at h
      cases ht : topUp V g fuel limit cs
          ⟨st.buf, st.count, st.underLimit, p1⟩ with
      | none =>
        rw [ht] at h
        exact absurd h (by simp)
      | some r =>
        obtain ⟨st1, ts⟩ := r
        rw [ht] at h
        dsimp only at h
        rcases hrest : genLoop V g fuel limit
            ⟨st1.buf.drop cs, st1.count, st1.underLimit, st1.pos⟩ with
          ⟨chunks2, texts2, cnt2, ended2⟩
        rw [hrest] at h
        simp only [Prod.mk.injEq] at h
        obtain ⟨rfl, rfl, rfl, hend⟩ := h
        have hrest2 : genLoop V g fuel limit
            ⟨st1.buf.drop cs, st1.count, st1.underLimit, st1.pos⟩ =
            (chunks2, texts2, cnt2, true) := by rw [hrest, hend]
        have IH := ih limit _ _ _ _ hrest2
        obtain ⟨ifl, icnt, itx, ilim⟩ := IH
        dsimp only at ifl icnt ilim
        obtain ⟨sb, sc, -, -, -, stx, -, slim, -, -⟩ :=
          topUp_spec V g fuel limit cs _ _ _ ht
        dsimp only at sb sc slim
        refine ⟨?_, ?_, ?_, ?_⟩
        · rw [List.flatten_cons, ifl, ← List.append_assoc,
            List.take_append_drop, sb, List.map_append, List.flatten_append,
            List.append_assoc]
        · rw [icnt, sc, List.length_append]; omega
        · intro t htm
          rcases List.mem_append.mp htm with hmem | hmem
          · exact stx t hmem
          · exact itx t hmem
        · intro n hln hwf hcle
          have hs := slim n hln hwf
          exact ilim n hln hs.1 (hs.2 hcle)
    · next hcond =>
      simp only [Prod.mk.injEq] at h
      obtain ⟨rfl, rfl, rfl, -⟩ := h
      have hulf : st.underLimit = false := by
        cases hu : st.underLimit
        · rfl
        · exact absurd (by simp [hu]) hcond
      have hbuf : st.buf = [] := by
        cases hie : st.buf.isEmpty
        · exact absurd (by simp [hulf, hie]) hcond
        · exact List.isEmpty_eq_true.mp hie
      refine ⟨by simp [hbuf], by simp, by simp, ?_⟩
      intro n hln hwf hcle
      rw [hulf] at hwf
      have : ¬ ((st.count : Int) < n) := by
        intro hc
        have hc2 : decide ((st.count : Int) < n) = true := decide_eq_true hc
        rw [← hwf] at hc2
        exact absurd hc2 (by simp)
      omega

/-- With no limit the `under_limit` flag stays up forever, so the outer
loop never exits normally: the chunk sequence never ends. -/
lemma genLoop_none_incomplete (V : GenVariant) (g : RNG) :
    ∀ fuel st, st.underLimit = true →
    (genLoop V g fuel none st).2.2.2 = false := by
  intro fuel
  induction fuel with
  | zero => intro st hul; simp [genLoop]
  | succ fuel ih =>
    intro st hul
    simp only [genLoop]
    split
    · next hcond =>
      rcases hcs : make_random_chunk_size g st.pos with ⟨cs, p1⟩
      simp only [hcs]
      cases ht : topUp V g fuel none cs
          ⟨st.buf, st.count, st.underLimit, p1⟩ with
      | none => simp
      | some r =>
        obtain ⟨st1, ts⟩ := r
        obtain ⟨-, -, -, -, -, -, -, -, snone, -⟩ :=
          topUp_spec V g fuel none cs _ _ _ ht
        dsimp only at snone
        have hul1 : st1.underLimit = true := snone rfl hul
        rcases hrest : genLoop V g fuel none
            ⟨st1.buf.drop cs, st1.count, st1.underLimit, st1.pos⟩ with
          ⟨chunks2, texts2, cnt2, ended2⟩
        simp only [hrest]
        have := ih ⟨st1.buf.drop cs, st1.count, st1.underLimit, st1.pos⟩ hul1
        rw [hrest] at this
        exact this
    · next hcond => exact absurd (by simp [hul]) hcond

/-- C5 amended: for every limit `n ≥ 1`, seed and ambient state, a run
of `generate_chunks` that ends (exits its loop normally) has generated
exactly `n` JSON values, its chunks concatenate to exactly the
concatenation of the `n` serialized object texts, and every text is
the `dumps` serialization of some generated object; with limit absent
the sequence never ends, for any fuel. -/
theorem C5_amended_stream_contract :
    (∀ fuel : Nat, ∀ n : Int, ∀ seed : Option Int, ∀ amb : RNG,
      ∀ chunks texts : List (List Nat), ∀ cnt : Nat,
      1 ≤ n →
      Ugly.generate_chunks fuel (some n) seed amb = (chunks, texts, cnt, true) →
      (cnt : Int) = n ∧ (texts.length : Int) = n ∧
      chunks.flatten = (texts.map utf8).flatten ∧
      ∀ t ∈ texts, 2 ≤ t.length ∧
        ∃ es ind asc isep ksep, t = dumps ind asc isep ksep 0 (JValue.jobj es)) ∧
    (∀ fuel : Nat, ∀ seed : Option Int, ∀ amb : RNG,
      (Ugly.generate_chunks fuel none seed amb).2.2.2 = false) := by
  constructor
  · intro fuel n seed amb chunks texts cnt hn h
    have main : ∀ g : RNG,
        genLoop uglyV g fuel (some n) ⟨[], 0, true, 0⟩ =
          (chunks, texts, cnt, true) →
        (cnt : Int) = n ∧ ((texts.length : Nat) : Int) = n ∧
        chunks.flatten = (texts.map utf8).flatten ∧
        ∀ t ∈ texts, 2 ≤ t.length ∧
          ∃ es ind asc isep ksep,
            t = dumps ind asc isep ksep 0 (JValue.jobj es) := by
      intro gg hgg
      obtain ⟨hfl, hcnt, htx, hlim⟩ :=
        genLoop_completed uglyV gg fuel (some n) ⟨[], 0, true, 0⟩
          chunks texts cnt hgg
      dsimp only at hfl hcnt hlim
      have hcn : (cnt : Int) = n :=
        hlim n rfl (by symm; rw [decide_eq_true_eq]; omega) (by omega)
      rw [hcnt] at hcn
      simp only [Nat.zero_add] at hcn hfl
      exact ⟨by rw [hcnt]; simpa using hcn, hcn, by simpa using hfl, htx⟩
    rcases seed with - | s
    · exact main amb h
    · exact main (seedStream s) h
  · intro fuel seed amb
    unfold Ugly.generate_chunks
    cases seed <;> exact genLoop_none_incomplete _ _ fuel _ rfl

/-- C5 witness: the run with seed absent, ambient stream `gTiny` and
limit 1 completes with one generated text `{}` and one chunk holding
exactly its two bytes. -/
theorem C5_witness :
    ((1 : Nat) : Int) = 1 ∧
    (([[123, 125]] : List (List Nat)).length : Int) = 1 ∧
    ([[123, 125]] : List (List Nat)).flatten =
      (([[123, 125]] : List (List Nat)).map utf8).flatten ∧
    ∀ t ∈ ([[123, 125]] : List (List Nat)), 2 ≤ t.length ∧
      ∃ es ind asc isep ksep, t = dumps ind asc isep ksep 0 (JValue.jobj es) :=
  C5_amended_stream_contract.1 10 1 none gTiny [[123, 125]] [[123, 125]] 1
    (by norm_num) (by decide)

/-- On a draw stream whose pattern from position `p0` on is, in groups
of four: value choice 2 (dictionary), length draw 1, a key draw that
avoids the random-characters branch, and any catalog index — value
generation recurses forever: whatever the fuel, it returns `none`. -/
lemma adv_value_div (g : RNG) (p0 : Nat)
    (h0 : ∀ k, g (p0 + 4 * k) % 5 = 2)
    (h1 : ∀ k, g (p0 + 4 * k + 1) = 1)
    (h2 : ∀ k, g (p0 + 4 * k + 2) % 5 ≠ 0) :
    ∀ fuel depth j,
      make_random_value uglyV g fuel depth (p0 + 4 * j) = none := by
  intro fuel
  induction fuel using Nat.strong_induction_on with
  | _ fuel ih =>
    match fuel with
    | 0 => intro depth j; rfl
    | 1 =>
      intro depth j
      simp [make_random_value, make_random_dict, randint, h0 j]
    | 2 =>
      intro depth j
      have hmod : 1 % (max (10 - depth) 1 + 1 - 0) = 1 :=
        Nat.mod_eq_of_lt (by omega)
      simp [make_random_value, make_random_dict, dictItems, randint,
        h0 j, h1 j, hmod]
    | (f + 3) =>
      intro depth j
      have hmod : 1 % (max (10 - depth) 1 + 1) = 1 :=
        Nat.mod_eq_of_lt (by omega)
      have hk : ¬ (g (p0 + 4 * j + 1 + 1) % 5 < 1) := by
        have e : p0 + 4 * j + 1 + 1 = p0 + 4 * j + 2 := by omega
        rw [e]
        have := h2 j
        omega
      have hcd : uglyV.childDepth depth 0 = depth + 1 := rfl
      have hrec := ih f (by omega) (depth + 1) (j + 1)
      have e2 : p0 + 4 * (j + 1) = p0 + 4 * j + 1 + 1 + 1 + 1 := by omega
      rw [e2] at hrec
      simp [make_random_value, make_random_dict, dictItems,
        make_random_string, randomLtFrac, randint, h0 j, h1 j,
        hk, hmod, hcd, hrec]

/-- C2 amended: at depth ≥ 9 every generated container has at most one
entry (`max(10 − depth, 1) = 1` bounds the drawn length), so the
recursion below depth 9 is a chain — but that chain can grow without
bound: on the always-dictionary stream `advStream`, generation at
depth 9 returns no result however much fuel it is given, i.e. it is
not terminating for every sequence of random draws. -/
theorem C2_amended_bounded_fanout :
    (∀ depth, 9 ≤ depth → ∀ g : RNG, ∀ fuel p es p1,
      make_random_dict uglyV g fuel depth p = some (es, p1) →
      es.length ≤ 1) ∧
    (∀ depth, 9 ≤ depth → ∀ g : RNG, ∀ fuel p xs p1,
      make_random_list uglyV g fuel depth p = some (xs, p1) →
      xs.length ≤ 1) ∧
    (∀ fuel, make_random_value uglyV advStream fuel 9 0 = none) := by
  refine ⟨?_, ?_, ?_⟩
  · intro depth hd g fuel p es p1 h
    have := (make_random_dict_spec uglyV g fuel depth p es p1 h).1
    omega
  · intro depth hd g fuel p xs p1 h
    have := make_random_list_spec uglyV g fuel depth p xs p1 h
    omega
  · intro fuel
    have hh0 : ∀ k, advStream (0 + 4 * k) % 5 = 2 := by
      intro k
      simp only [advStream]
      split
      · omega
      · next hne => exact absurd (by omega) hne
    have hh1 : ∀ k, advStream (0 + 4 * k + 1) = 1 := by
      intro k
      simp only [advStream]
      split
      · next he => exact absurd he (by omega)
      · split
        · next he => exact absurd he (by omega)
        · rfl
    have hh2 : ∀ k, advStream (0 + 4 * k + 2) % 5 ≠ 0 := by
      intro k
      simp only [advStream]
      split
      · next he => exact absurd he (by omega)
      · split
        · next he => exact absurd he (by omega)
        · decide
    simpa using adv_value_div advStream 0 hh0 hh1 hh2 fuel 9 0

/-- C2 witness: the depth hypothesis discharged at depth 9 on a
concrete one-entry dictionary generation. -/
theorem C2_witness :
    9 ≤ 9 ∧ ([([], JValue.jstr [121, 101, 115])] :
      List (List Nat × JValue)).length ≤ 1 :=
  ⟨by norm_num,
   C2_amended_bounded_fanout.1 9 (by norm_num) gNine 20 0 _ 6 rfl⟩

/-- Specialization of the divergence lemma to `advChunk`, whose
adversarial pattern starts at position 5. -/
lemma advChunk_value_none :
    ∀ fuel depth j,
      make_random_value uglyV advChunk fuel depth (5 + 4 * j) = none := by
  have hh0 : ∀ k, advChunk (5 + 4 * k) % 5 = 2 := by
    intro k
    simp only [advChunk]
    split
    · next hlt => exact absurd hlt (by omega)
    · split
      · omega
      · next hne => exact absurd (by omega) hne
  have hh1 : ∀ k, advChunk (5 + 4 * k + 1) = 1 := by
    intro k
    simp only [advChunk]
    split
    · next hlt => exact absurd hlt (by omega)
    · split
      · next he => exact absurd he (by omega)
      · split
        · next he => exact absurd he (by omega)
        · rfl
  have hh2 : ∀ k, advChunk (5 + 4 * k + 2) % 5 ≠ 0 := by
    intro k
    simp only [advChunk]
    split
    · next hlt => exact absurd hlt (by omega)
    · split
      · next he => exact absurd he (by omega)
      · split
        · next he => exact absurd he (by omega)
        · decide
  exact adv_value_div advChunk 5 hh0 hh1 hh2

/-- On `advChunk`, the JSON text generation that `generate_chunks`
first attempts (at stream position 2) never returns. -/
lemma advChunk_json_none :
    ∀ fuel, make_random_json uglyV advChunk fuel 2 = none := by
  intro fuel
  match fuel with
  | 0 => rfl
  | 1 => rfl
  | (f + 2) =>
    have hv : make_random_value uglyV advChunk f 1 5 = none := by
      simpa using advChunk_value_none f 1 0
    have ha2 : advChunk 2 = 1 := rfl
    have ha3 : advChunk 3 = 1 := rfl
    have ha4 : advChunk 4 = 0 := rfl
    have hcd : uglyV.childDepth 0 0 = 1 := rfl
    simp [make_random_json, make_random_dict, dictItems, make_random_string,
      randomLtFrac, randint, ha2, ha3, ha4, hcd, hv]

/-- C5 counterexample: with limit 1 and the adversarial ambient stream
`advChunk`, `generate_chunks` never finishes — the first top-up hangs
inside value generation, so the claimed finiteness for every seed and
draw sequence fails. -/
theorem C5_counterexample : neverCompletes (some 1) none advChunk := by
  intro fuel
  show (Ugly.generate_chunks fuel (some 1) none advChunk).2.2.2 = false
  unfold Ugly.generate_chunks
  cases fuel with
  | zero => rfl
  | succ fuel =>
    have htu : ∀ f, topUp uglyV advChunk f (some 1) 1 ⟨[], 0, true, 2⟩ = none := by
      intro f
      cases f with
      | zero => rfl
      | succ f => simp [topUp, advChunk_json_none f]
    have hcs : make_random_chunk_size advChunk 0 = (1, 2) := rfl
    simp [genLoop, hcs, htu fuel]

/-- C10: every `make_random_json` text is at least 2 characters (hence
at least 2 bytes) long, so each top-up iteration strictly grows the
buffer; a completed top-up leaves the buffer at the requested chunk
size or the limit exhausted, and for any chunk size ≤ 1024 it can have
run at most 512 iterations. -/
theorem C10_topup_progress :
    (∀ V : GenVariant, ∀ g : RNG, ∀ fuel p : Nat, ∀ t : List Nat, ∀ p1 : Nat,
      make_random_json V g fuel p = some (t, p1) → 2 ≤ t.length) ∧
    (∀ V : GenVariant, ∀ g : RNG, ∀ fuel : Nat, ∀ limit : Option Int,
      ∀ cs : Nat, ∀ st st1 : GenState, ∀ ts : List (List Nat),
      cs ≤ 1024 →
      topUp V g fuel limit cs st = some (st1, ts) →
      (cs ≤ st1.buf.length ∨ st1.underLimit = false) ∧ ts.length ≤ 512) := by
  constructor
  · intro V g fuel p t p1 h
    exact (make_random_json_spec V g fuel p t p1 h).1
  · intro V g fuel limit cs st st1 ts hcs h
    obtain ⟨-, -, -, sge, -, -, -, -, -, sbound⟩ :=
      topUp_spec V g fuel limit cs _ _ _ h
    refine ⟨sge, ?_⟩
    rcases sbound with rfl | hb
    · simp
    · omega

/-- C10 witness: the text-length bound and the top-up postcondition
instantiated on the concrete `gTiny` run (chunk size 1024, limit 1). -/
theorem C10_witness :
    (2 ≤ ([123, 125] : List Nat).length) ∧
    ((1024 ≤ ([123, 125] : List Nat).length ∨ false = false) ∧
      ([[123, 125]] : List (List Nat)).length ≤ 512) :=
  ⟨C10_topup_progress.1 uglyV gTiny 8 2 [123, 125] 6 (by decide),
   C10_topup_progress.2 uglyV gTiny 9 (some 1) 1024 ⟨[], 0, true, 2⟩
     ⟨[123, 125], 1, false, 6⟩ [[123, 125]] (by norm_num) (by decide)⟩
